import Mathlib

/-!
Verification of the NextNode logger core: shallow embedding of the
log-entry pipeline (scope extraction, level filtering, transport
dispatch), the batching scheduler, the HTTP transport (validation,
retry/backoff, flush callbacks), the JSON formatter, and the safe
serializer, each translated from the TypeScript source, together with
theorems settling the specification claims.
-/

namespace NNLog

/-- JavaScript runtime values as they appear in log payloads
(`LogObject` in `types.ts`): flat primitive values plus the location
record that the JSON formatter stores under the `location` key. -/
inductive JsVal where
  | vStr (s : String)
  | vNum (n : Int)
  | vBool (b : Bool)
  | vNull
  | vUndef
  | vLoc (fn : String) (file : Option String) (line : Option Nat)
deriving DecidableEq

/-- Log severity levels, from `types.ts` (`LogLevel`). -/
inductive LogLevel where
  | debug
  | info
  | warn
  | error
deriving DecidableEq

/-- `LOG_LEVEL_PRIORITY` from `types.ts`: debug 0, info 1, warn 2, error 3. -/
def LOG_LEVEL_PRIORITY : LogLevel → Nat
  | .debug => 0
  | .info => 1
  | .warn => 2
  | .error => 3

/-- Printed name of a level, as it appears in JSON output. -/
def levelName : LogLevel → String
  | .debug => "debug"
  | .info => "info"
  | .warn => "warn"
  | .error => "error"

/-- Location info: either the development variant `{function, file, line}`
or the production variant `{function}` (`types.ts`). -/
inductive LocationVal where
  | dev (file : String) (line : Nat) (fn : String)
  | prod (fn : String)
deriving DecidableEq

/-- First-match association lookup, the model of reading a JS object
property: JS objects hold at most one own property per key. -/
def jsLookup {α : Type} : List (String × α) → String → Option α
  | [], _ => none
  | (k, v) :: rest, key => if k = key then some v else jsLookup rest key

/-- JS object property assignment: an existing key is overwritten in
place (keeping its position), a new key is appended at the end. -/
def jsInsert {α : Type} (out : List (String × α)) (k : String) (v : α) :
    List (String × α) :=
  if out.any (fun p => p.1 == k) then
    out.map (fun p => if p.1 = k then (k, v) else p)
  else out ++ [(k, v)]

/-- A structured log entry (`LogEntry` in `types.ts`); `scope` is `none`
for JS `undefined`, `object` is `none` when absent. -/
structure LogEntry where
  level : LogLevel
  message : String
  timestamp : String
  location : LocationVal
  requestId : String
  scope : Option JsVal
  object : Option (List (String × JsVal))
deriving DecidableEq

/-- JS `??` on a possibly-absent value: `scope ?? undefined` turns both
`null` and `undefined` into `undefined` (modelled as `none`). -/
def coalesceToUndef : Option JsVal → Option JsVal
  | some .vNull => none
  | some .vUndef => none
  | none => none
  | some v => some v

/-- `NextNodeLogger.extractScope` (`location.ts` / `core/logger.ts`):
`const \x7b scope, ...rest \x7d = object`; `rest` drops every `scope`
property; `cleanObject` is `undefined` unless `rest` has properties. -/
def extractScope : Option (List (String × JsVal)) →
    Option JsVal × Option (List (String × JsVal))
  | none => (none, none)
  | some object =>
    let scope := jsLookup object "scope"
    let rest := object.filter (fun p => p.1 ≠ "scope")
    let hasOtherProperties := rest.length > 0
    (coalesceToUndef scope, if hasOtherProperties then some rest else none)

/-- Ambient per-call effects (clock, request-id generator, stack
capture), passed explicitly: `getCurrentTimestamp()`,
`generateRequestId()` and `parseLocation(...)` results. -/
structure CallCtx where
  timestamp : String
  requestId : String
  location : LocationVal

/-- `NextNodeLogger.createLogEntry`: extract scope, prepend the prefix
when it is a truthy string (JS `this.prefix ? ... : ...`), fill
timestamp/requestId/location; location is `\x7b function: 'disabled' \x7d`
when `includeLocation` is off. -/
def createLogEntry (pfx : Option String) (includeLocation : Bool)
    (ctx : CallCtx) (level : LogLevel) (message : String)
    (object : Option (List (String × JsVal))) : LogEntry :=
  let sc := extractScope object
  let finalMessage :=
    match pfx with
    | some p => if p ≠ "" then p ++ " " ++ message else message
    | none => message
  { level := level
    message := finalMessage
    timestamp := ctx.timestamp
    location := if includeLocation then ctx.location else .prod "disabled"
    requestId := ctx.requestId
    scope := sc.1
    object := sc.2 }

/-! ## Transport dispatch (final-variant `NextNodeLogger.log`) -/

/-- Observable behaviour of one transport's `log` call: returns
normally, throws synchronously, or returns a promise that later
rejects. -/
inductive TBehavior where
  | ok
  | throwSync
  | rejectAsync
deriving DecidableEq

/-- The dispatch loop `for (const transport of this.transports)
transport.log(entry)`: each transport is invoked in order; a
synchronous throw propagates out of the loop (later transports are not
reached); a rejected promise is not awaited, so the loop continues. -/
def dispatchFrom (i : Nat) : List TBehavior → List Nat × Bool
  | [] => ([], false)
  | b :: rest =>
    if b = .throwSync then ([i], true)
    else
      let r := dispatchFrom (i + 1) rest
      (i :: r.1, r.2)

/-- Dispatch over the whole transport list, starting at index 0. -/
def dispatch (bs : List TBehavior) : List Nat × Bool := dispatchFrom 0 bs

/-- Number of transports that get invoked: all of them, or the prefix
up to and including the first synchronously-throwing one. -/
def invokedCount : List TBehavior → Nat
  | [] => 0
  | b :: rest => if b = .throwSync then 1 else 1 + invokedCount rest

/-- Configuration of the final-variant logger (`LoggerConfig` in
`types.ts`), with constructor defaults already applied
(`minLevel: 'debug'`, `silent: false`, `includeLocation: true`). -/
structure FinalConfig where
  pfx : Option String
  includeLocation : Bool
  minLevel : LogLevel
  silent : Bool
deriving DecidableEq

/-- `NextNodeLogger.shouldLog`: `silent` suppresses everything,
otherwise compare level priorities. -/
def shouldLog (cfg : FinalConfig) (level : LogLevel) : Bool :=
  if cfg.silent then false
  else LOG_LEVEL_PRIORITY level ≥ LOG_LEVEL_PRIORITY cfg.minLevel

/-- Result of one `log` call: the entry built (if any), the indices of
transports whose `log` was invoked, and whether the call threw. -/
structure LogResult where
  entry : Option LogEntry
  invoked : List Nat
  threw : Bool
deriving DecidableEq

/-- Final-variant `NextNodeLogger.log` (`location.ts`): early-return on
`shouldLog`, build the entry, then dispatch to every transport with no
try/catch around the loop. -/
def finalLog (cfg : FinalConfig) (ctx : CallCtx) (transports : List TBehavior)
    (level : LogLevel) (message : String)
    (object : Option (List (String × JsVal))) : LogResult :=
  if ¬ shouldLog cfg level then ⟨none, [], false⟩
  else
    let entry := createLogEntry cfg.pfx cfg.includeLocation ctx level message object
    let r := dispatch transports
    ⟨some entry, r.1, r.2⟩

theorem dispatchFrom_eq (i : Nat) (bs : List TBehavior) :
    dispatchFrom i bs =
      ((List.range (invokedCount bs)).map (· + i), bs.any (· = .throwSync)) := by
  induction bs generalizing i with
  | nil => simp [dispatchFrom, invokedCount]
  | cons b rest ih =>
    by_cases hb : b = .throwSync
    · subst hb
      simp [dispatchFrom, invokedCount, List.range_succ, List.any_cons]
    · simp only [dispatchFrom, invokedCount, if_neg hb, ih (i + 1)]
      rw [Prod.mk.injEq]
      refine ⟨?_, ?_⟩
      · rw [Nat.add_comm 1 (invokedCount rest), List.range_succ_eq_map]
        simp only [List.map_cons, Nat.zero_add, List.map_map]
        congr 1
        apply List.map_congr_left
        intro a _
        simp only [Function.comp_apply, Nat.succ_eq_add_one]
        omega
      · simp [List.any_cons, hb]

theorem dispatch_eq (bs : List TBehavior) :
    dispatch bs = (List.range (invokedCount bs), bs.any (· = .throwSync)) := by
  have h := dispatchFrom_eq 0 bs
  simpa [dispatch] using h

theorem invokedCount_of_no_throw (bs : List TBehavior)
    (h : TBehavior.throwSync ∉ bs) : invokedCount bs = bs.length := by
  induction bs with
  | nil => rfl
  | cons b rest ih =>
    simp only [List.mem_cons, not_or] at h
    have hb : b ≠ .throwSync := fun hb => h.1 hb.symm
    simp [invokedCount, hb, ih h.2, Nat.add_comm]

theorem any_throw_false_of_not_mem (bs : List TBehavior)
    (h : TBehavior.throwSync ∉ bs) : bs.any (· = .throwSync) = false := by
  induction bs with
  | nil => rfl
  | cons b rest ih =>
    simp only [List.mem_cons, not_or] at h
    have hb : b ≠ .throwSync := fun hb => h.1 hb.symm
    simp [List.any_cons, hb, ih h.2]

/-! ## Batching scheduler (`core/logger.ts`) -/

/-- `BatchConfig` from `types.ts` with the constructor defaults of
`core/logger.ts` (`maxSize: 100`, `flushInterval: 1000`,
`maxDelay: 5000`) already resolved. -/
structure BatchConfig where
  enabled : Bool
  maxSize : Nat
  flushInterval : Nat
  maxDelay : Nat
deriving DecidableEq

/-- `BatchState`: pending entries, the pending `setTimeout` handle
(modelled by its absolute fire deadline), and the `Date.now()` value of
the first buffered entry. -/
structure BatchState where
  buffer : List LogEntry
  timer : Option Nat
  firstEntryTime : Option Nat
deriving DecidableEq

/-- Observable run state of one batching logger: the simulated clock,
the batch state, every flushed batch in order, and every entry handed
to `output` in order. -/
structure CoreState where
  now : Nat
  bs : BatchState
  flushes : List (List LogEntry)
  outputs : List LogEntry
deriving DecidableEq

/-- Fresh logger state at clock value `t0`. -/
def initCoreState (t0 : Nat) : CoreState :=
  ⟨t0, ⟨[], none, none⟩, [], []⟩

/-- `NextNodeLogger.flushBatch`: no-op on an empty buffer, otherwise
format/output every buffered entry in insertion order and reset the
batch state (buffer empty, timer null, first-entry time null). -/
def flushBatch (st : CoreState) : CoreState :=
  if st.bs.buffer.length = 0 then st
  else
    { st with
      flushes := st.flushes ++ [st.bs.buffer]
      outputs := st.outputs ++ st.bs.buffer
      bs := ⟨[], none, none⟩ }

/-- `NextNodeLogger.scheduleBatchFlush`: keep an already-scheduled
timer, otherwise arm a timer for `flushInterval` from now. -/
def scheduleBatchFlush (cfg : BatchConfig) (st : CoreState) : CoreState :=
  match st.bs.timer with
  | some _ => st
  | none =>
    { st with bs := { st.bs with timer := some (st.now + cfg.flushInterval) } }

/-- `NextNodeLogger.shouldFlushBatch`: size trigger, or max-delay
trigger; the JS guard `this.batchState.firstEntryTime && ...` is falsy
when the recorded time is 0. -/
def shouldFlushBatch (cfg : BatchConfig) (st : CoreState) : Bool :=
  if st.bs.buffer.length ≥ cfg.maxSize then true
  else
    match st.bs.firstEntryTime with
    | some t => if t ≠ 0 ∧ st.now - t ≥ cfg.maxDelay then true else false
    | none => false

/-- `NextNodeLogger.log` of the batching logger: build the entry; when
batching is disabled output immediately; otherwise append to the
buffer, record the first-entry time (`?? now`), then either flush at
once (cancelling any pending timer) or make sure a timer is armed. -/
def coreLog (cfg : BatchConfig) (pfx : Option String) (includeLocation : Bool)
    (ctx : CallCtx) (st : CoreState) (level : LogLevel) (message : String)
    (object : Option (List (String × JsVal))) : CoreState :=
  let entry := createLogEntry pfx includeLocation ctx level message object
  if ¬ cfg.enabled then
    { st with outputs := st.outputs ++ [entry] }
  else
    let st1 :=
      { st with bs :=
        { buffer := st.bs.buffer ++ [entry]
          timer := st.bs.timer
          firstEntryTime := some (st.bs.firstEntryTime.getD st.now) } }
    if shouldFlushBatch cfg st1 then
      flushBatch { st1 with bs := { st1.bs with timer := none } }
    else
      scheduleBatchFlush cfg st1

/-- Advance the simulated clock by `d` ms; if the pending flush timer's
deadline is reached, its callback runs `flushBatch`. -/
def advanceTime (st : CoreState) (d : Nat) : CoreState :=
  let now2 := st.now + d
  match st.bs.timer with
  | some dl =>
    if dl ≤ now2 then flushBatch { st with now := now2, bs := { st.bs with timer := none } }
    else { st with now := now2 }
  | none => { st with now := now2 }

/-- `NextNodeLogger.flush`: cancel a pending timer, then flush. -/
def manualFlush (st : CoreState) : CoreState :=
  flushBatch { st with bs := { st.bs with timer := none } }

/-- External stimuli of one batching-logger run. -/
inductive CoreEvent where
  | logCall (level : LogLevel) (message : String)
      (object : Option (List (String × JsVal)))
  | advance (ms : Nat)
  | flushCall
deriving DecidableEq

/-- One step of the batching logger under an external event. -/
def coreStep (cfg : BatchConfig) (pfx : Option String) (includeLocation : Bool)
    (ctx : CallCtx) (st : CoreState) : CoreEvent → CoreState
  | .logCall level message object => coreLog cfg pfx includeLocation ctx st level message object
  | .advance ms => advanceTime st ms
  | .flushCall => manualFlush st

/-- Run the batching logger over a list of events. -/
def coreRun (cfg : BatchConfig) (pfx : Option String) (includeLocation : Bool)
    (ctx : CallCtx) (st : CoreState) (evs : List CoreEvent) : CoreState :=
  evs.foldl (coreStep cfg pfx includeLocation ctx) st

/-! ## HTTP transport (`transports/http.ts`) -/

/-- The backoff before the next attempt, from the source comment
"Exponential backoff: 100ms, 200ms, 400ms, etc.": `100 * 2 ** attempt`. -/
def retryDelay (attempt : Nat) : Nat := 100 * 2 ^ attempt

/-- Trace of `HttpTransport.sendWithRetry`: the batch passed to each
`send` invocation in order, the `sleep` durations between consecutive
attempts in order, and whether the whole call threw. -/
structure RetryResult where
  sent : List (List LogEntry)
  delays : List Nat
  failed : Bool
deriving DecidableEq

/-- The loop of `sendWithRetry` at a given `attempt` index with `rem`
iterations left (`rem = maxRetries - attempt`): `for (let attempt = 0;
attempt < maxRetries; attempt++)` tries `send`, returns on success,
sleeps `100 * 2 ** attempt` when another attempt remains, and rethrows
the last error after the loop. `sendOk n` tells whether the `send` at
attempt index `n` succeeds. -/
def retryGo (sendOk : Nat → Bool) (maxRetries : Nat) (entries : List LogEntry) :
    Nat → Nat → RetryResult
  | _, 0 => ⟨[], [], true⟩
  | attempt, rem + 1 =>
    if sendOk attempt then ⟨[entries], [], false⟩
    else
      let tail := retryGo sendOk maxRetries entries (attempt + 1) rem
      ⟨entries :: tail.sent,
       (if attempt < maxRetries - 1 then [retryDelay attempt] else []) ++ tail.delays,
       tail.failed⟩

/-- `HttpTransport.sendWithRetry`: the loop from attempt 0, which runs
at most `maxRetries` iterations. -/
def sendWithRetry (sendOk : Nat → Bool) (maxRetries : Nat)
    (entries : List LogEntry) : RetryResult :=
  retryGo sendOk maxRetries entries 0 maxRetries

/-- Which configured callback a flush fires, with its argument
(`onError` receives the failed entries, `onSuccess` the sent count). -/
inductive FlushCallback where
  | onSuccess (count : Nat)
  | onError (entries : List LogEntry)
deriving DecidableEq

/-- Outcome of one `HttpTransport.flush` call. -/
structure FlushResult where
  retry : Option RetryResult
  callback : Option FlushCallback
  buffer : List LogEntry
  isFlushing : Bool
deriving DecidableEq

/-- `HttpTransport.flush`: short-circuit when already flushing or the
buffer is empty; otherwise capture the buffer, clear it, send with
retry, then fire `onSuccess` with the count or `onError` with the
captured entries; `finally` clears the in-flight guard. -/
def httpFlush (sendOk : Nat → Bool) (maxRetries : Nat)
    (isFlushing : Bool) (buffer : List LogEntry) : FlushResult :=
  if isFlushing || buffer.isEmpty then ⟨none, none, buffer, isFlushing⟩
  else
    let entries := buffer
    let r := sendWithRetry sendOk maxRetries entries
    ⟨some r,
     some (if r.failed then .onError entries else .onSuccess entries.length),
     [], false⟩

/-! ## HTTP construction-time validation (`transports/http.ts`) -/

/-- ASCII lowercasing, the model of `String.prototype.toLowerCase` and
of the URL parser's scheme lowercasing (computable by the kernel,
unlike the position-based library `String.toLower`). -/
def strLower (s : String) : String := String.mk (s.data.map Char.toLower)

/-- Characters allowed after the first character of a URL scheme
(RFC 3986 / WHATWG): ALPHA / DIGIT / "+" / "-" / ".". -/
def isSchemeChar (c : Char) : Bool :=
  c.isAlphanum || c = '+' || c = '-' || c = '.'

/-- A syntactically valid scheme: one ALPHA then scheme characters. -/
def validSchemeStr : List Char → Bool
  | [] => false
  | c :: rest => c.isAlpha && rest.all isSchemeChar

/-- Split a character list at its first colon, if any. -/
def splitFirstColon : List Char → Option (List Char × List Char)
  | [] => none
  | c :: rest =>
    if c = ':' then some ([], rest)
    else (splitFirstColon rest).map (fun p => (c :: p.1, p.2))

/-- WHATWG special schemes, which require an authority (host). -/
def specialScheme (s : String) : Bool :=
  s = "http" || s = "https" || s = "ws" || s = "wss" || s = "ftp" || s = "file"

/-- Model of the WHATWG `new URL(endpoint)` platform parser, restricted
to the `protocol` the transport inspects: the input must have a valid
scheme before a colon; a special scheme other than `file` must carry a
nonempty host; on success the lowercased scheme plus ":" (the value of
`url.protocol`) is returned, otherwise parsing fails (the constructor
would throw `TypeError`). -/
def parseURLProtocol (s : String) : Option String :=
  match splitFirstColon s.data with
  | none => none
  | some (schemeCs, rest) =>
    if ¬ validSchemeStr schemeCs then none
    else
      let scheme := strLower (String.mk schemeCs)
      if specialScheme scheme then
        let afterSlashes := rest.dropWhile (fun c => c == '/')
        let host := afterSlashes.takeWhile (fun c => c != '/' && c != '?' && c != '#')
        if scheme = "file" then some (scheme ++ ":")
        else if host.isEmpty then none
        else some (scheme ++ ":")
      else some (scheme ++ ":")

/-- `HttpTransport.validateEndpoint`: parse the URL (throwing "Invalid
endpoint URL" on failure), then reject any protocol other than `http:`
or `https:`. -/
def validateEndpoint (endpoint : String) : Except String Unit :=
  match parseURLProtocol endpoint with
  | none => .error ("Invalid endpoint URL: " ++ endpoint)
  | some protocol =>
    if protocol ≠ "http:" ∧ protocol ≠ "https:" then
      .error ("Invalid protocol " ++ protocol ++ ". Only http: and https: are allowed")
    else .ok ()

/-- `RESTRICTED_HEADERS` from `transports/http.ts`. -/
def RESTRICTED_HEADERS : List String :=
  ["host", "content-length", "transfer-encoding"]

/-- Key scan of `HttpTransport.validateHeaders`: throw on the first
key whose lowercasing is restricted. -/
def validateHeadersList : List (String × String) → Except String Unit
  | [] => .ok ()
  | (k, _) :: rest =>
    if strLower k ∈ RESTRICTED_HEADERS then
      .error ("Header " ++ k ++ " is restricted and cannot be overridden")
    else validateHeadersList rest

/-- `HttpTransport.validateHeaders`: no headers means nothing to check. -/
def validateHeaders : Option (List (String × String)) → Except String Unit
  | none => .ok ()
  | some hs => validateHeadersList hs

/-- `HttpTransportConfig` (`transports/http.ts`): the options the
constructor validates and resolves; callbacks are omitted, they carry
no data the validation inspects. There is no method option. -/
structure HttpConfig where
  endpoint : String
  headers : Option (List (String × String))
  batchSize : Option Nat
  flushInterval : Option Nat
  timeout : Option Nat
  maxRetries : Option Nat
deriving DecidableEq

/-- The `HttpTransport` constructor's validation phase: endpoint first,
then headers; it performs no network activity (it only stores the
config and arms the flush interval timer). -/
def httpTransportInit (cfg : HttpConfig) : Except String Unit := do
  validateEndpoint cfg.endpoint
  validateHeaders cfg.headers

/-- `DEFAULT_MAX_RETRIES = 3` applied by the constructor. -/
def resolvedMaxRetries (cfg : HttpConfig) : Nat := cfg.maxRetries.getD 3

/-! ## The request one `HttpTransport.send` issues (C9) -/

/-- The `fetch` request built by `HttpTransport.send`: hardcoded method
`POST`; headers are the object literal `Content-Type: application/json`
spread-overridden by the configured headers; the body is
`JSON.stringify(\x7b logs: entries \x7d)`, recorded here as the entry
list carried under the `logs` key. -/
structure HttpRequest where
  method : String
  headers : List (String × String)
  bodyLogs : List LogEntry
deriving DecidableEq

/-- Build the request `HttpTransport.send` issues for a batch. -/
def buildRequest (cfg : HttpConfig) (entries : List LogEntry) : HttpRequest :=
  { method := "POST"
    headers := (cfg.headers.getD []).foldl
      (fun out kv => jsInsert out kv.1 kv.2)
      [("Content-Type", "application/json")]
    bodyLogs := entries }

/-- The claim's notion of a configurable method: two configurations
whose sends use different HTTP methods. -/
def methodConfigurable : Prop :=
  ∃ c1 e1 c2 e2, (buildRequest c1 e1).method ≠ (buildRequest c2 e2).method

/-- `Response.ok` of the fetch platform API: status in the 2xx class. -/
def responseOk (status : Nat) : Bool :=
  200 ≤ status && status < 300

/-- Whether one `send` succeeds: a network failure (no response) or a
non-2xx status makes it throw, which feeds the retry loop. -/
def sendSucceeds : Option Nat → Bool
  | none => false
  | some status => responseOk status

/-! ## JSON formatter (`formatters/json.ts`) -/

/-- `DANGEROUS_KEYS` from `formatters/json.ts`. -/
def DANGEROUS_KEYS : List String := ["__proto__", "constructor", "prototype"]

/-- JS truthiness of a payload value (`if (scope)`). -/
def jsTruthy : JsVal → Bool
  | .vStr s => s != ""
  | .vNum n => n != 0
  | .vBool b => b
  | .vNull => false
  | .vUndef => false
  | .vLoc _ _ _ => true

/-- The entry's `location` value as it is placed in the JSON output. -/
def locVal : LocationVal → JsVal
  | .dev file line fn => .vLoc fn (some file) (some line)
  | .prod fn => .vLoc fn none none

/-- `buildJsonOutput` (`formatters/json.ts`): fixed fields first, then
`scope` when truthy, then every payload property with a defined value
and a non-dangerous key assigned onto the output object. -/
def buildJsonOutput (entry : LogEntry) : List (String × JsVal) :=
  let output := [("level", JsVal.vStr (levelName entry.level)),
                 ("message", JsVal.vStr entry.message),
                 ("timestamp", JsVal.vStr entry.timestamp),
                 ("location", locVal entry.location),
                 ("requestId", JsVal.vStr entry.requestId)]
  let output2 :=
    match entry.scope with
    | some sv => if jsTruthy sv then jsInsert output "scope" sv else output
    | none => output
  match entry.object with
  | none => output2
  | some obj =>
    obj.foldl
      (fun out kv =>
        if kv.2 ≠ JsVal.vUndef ∧ kv.1 ∉ DANGEROUS_KEYS then jsInsert out kv.1 kv.2
        else out)
      output2

/-! ## Safe serializer (`utils/serialization.ts`)

JS values with object identity: objects live in a heap (address →
field list) so self-referential and mutually-referential structures are
expressible; `hPoison` models a value whose property access throws (a
throwing getter), the way `JSON.stringify` can fail unexpectedly. -/

/-- A JS runtime value as `safeStringify` sees it. -/
inductive HVal where
  | hNull
  | hUndef
  | hBool (b : Bool)
  | hNum (n : Int)
  | hStr (s : String)
  | hFn (name : String)
  | hSym (desc : String)
  | hBig (n : Int)
  | hRef (addr : Nat)
  | hPoison (msg : String)
deriving DecidableEq

/-- The object heap: address `a` holds the field list of one object. -/
abbrev Heap := List (List (String × HVal))

/-- `typeToString` (`utils/serialization.ts`): the special types with a
centralized string conversion; `undefined` for every other value. -/
def typeToString : HVal → Option String
  | .hNull => some "null"
  | .hUndef => some "undefined"
  | .hFn name =>
    some ("[Function: " ++ (if name = "" then "anonymous" else name) ++ "]")
  | .hSym desc => some ("Symbol(" ++ desc ++ ")")
  | .hBig n => some (toString n)
  | _ => none

/-- JSON string quoting; the model assumes the strings carry no
characters that `JSON.stringify` would escape. -/
def jsonQuote (s : String) : String := "\"" ++ s ++ "\""

/-- The indentation produced by `JSON.stringify(_, _, 2)` at a nesting
depth. -/
def jsonIndent (depth : Nat) : String :=
  String.join (List.replicate depth "  ")

/-- Whether a value is the throwing-getter marker. -/
def isPoison : HVal → Bool
  | .hPoison _ => true
  | _ => false

/-- Serialize the fields of one object in order with the given
value serializer, threading the `seen` set through the fields the way
the shared `WeakSet` is. -/
def serFieldsWith (go : List Nat → HVal → Except String (String × List Nat)) :
    List Nat → List (String × HVal) → Except String (List String × List Nat)
  | seen, [] => .ok ([], seen)
  | seen, (k, v) :: rest =>
    match go seen v with
    | .error e => .error e
    | .ok (s, seen') =>
      match serFieldsWith go seen' rest with
      | .error e => .error e
      | .ok (parts, seen'') => .ok ((jsonQuote k ++ ": " ++ s) :: parts, seen'')

/-- `JSON.stringify(value, replacer, 2)` on one value, with the
`WeakSet` of already-visited objects threaded through (`seen`): the
replacer maps an already-seen object to the `[Circular Reference]`
string and special types to their tag strings, otherwise the object is
added to `seen` and its fields are serialized at one more indent level;
`fuel` bounds the nesting of object descents and is proven sufficient
below. -/
def serProp (h : Heap) : Nat → List Nat → Nat → HVal →
    Except String (String × List Nat)
  | fuel, seen, depth, v =>
    match v with
    | .hPoison msg => .error msg
    | .hRef a =>
      if a ∈ seen then .ok (jsonQuote "[Circular Reference]", seen)
      else
        match h[a]? with
        | none => .ok ("null", seen)
        | some fields =>
          match fuel with
          | 0 => .error "Maximum call stack size exceeded"
          | fuel' + 1 =>
            match serFieldsWith (fun sn w => serProp h fuel' sn (depth + 1) w)
                (a :: seen) fields with
            | .error e => .error e
            | .ok (parts, seen') =>
              if parts.isEmpty then .ok ("\x7b\x7d", seen')
              else
                .ok ("\x7b\n" ++
                     String.intercalate ",\n"
                       (parts.map (fun p => jsonIndent (depth + 1) ++ p)) ++
                     "\n" ++ jsonIndent depth ++ "\x7d", seen')
    | .hNull => .ok (jsonQuote "null", seen)
    | .hUndef => .ok (jsonQuote "undefined", seen)
    | .hFn name =>
      .ok (jsonQuote ("[Function: " ++ (if name = "" then "anonymous" else name) ++ "]"),
           seen)
    | .hSym desc => .ok (jsonQuote ("Symbol(" ++ desc ++ ")"), seen)
    | .hBig n => .ok (jsonQuote (toString n), seen)
    | .hStr s => .ok (jsonQuote s, seen)
    | .hNum n => .ok (toString n, seen)
    | .hBool b => .ok (if b then "true" else "false", seen)

/-- The try block of `safeStringify`: fast paths for special types and
primitives, then `JSON.stringify(value, replacer, 2)`; an `error`
result models a thrown exception reaching the catch. -/
def safeStringifyE (h : Heap) (v : HVal) : Except String String :=
  match typeToString v with
  | some s => .ok s
  | none =>
    match v with
    | .hStr s => .ok s
    | .hNum n => .ok (toString n)
    | .hBool b => .ok (if b then "true" else "false")
    | _ =>
      match serProp h (h.length + 1) [] 0 v with
      | .ok (s, _) => .ok s
      | .error e => .error e

/-- `safeStringify`: the try block with its catch-all fallback
`[Serialization Error: message]`. -/
def safeStringify (h : Heap) (v : HVal) : String :=
  match safeStringifyE h v with
  | .ok s => s
  | .error e => "[Serialization Error: " ++ e ++ "]"

/-- A heap none of whose stored values is a throwing getter. -/
def heapNoPoison (h : Heap) : Prop :=
  ∀ fields ∈ h, ∀ kv ∈ fields, isPoison kv.2 = false

/-- Substring test on the underlying character lists. -/
def listContainsSub (pat : List Char) : List Char → Bool
  | [] => pat.isEmpty
  | c :: rest => pat.isPrefixOf (c :: rest) || listContainsSub pat rest

/-- Whether `pat` occurs contiguously inside `s`. -/
def strContainsSub (s pat : String) : Bool :=
  listContainsSub pat.data s.data

/-! ## Shared concrete fixtures -/

/-- A fixed ambient context: one timestamp, request id and parsed
location, standing for the effect results of one call. -/
def ctx0 : CallCtx :=
  ⟨"2024-01-01T00:00:00.000Z", "req_00000001", .dev "app.ts" 42 "main"⟩

/-- A logger configuration with every constructor default
(`minLevel: 'debug'`, `silent: false`, `includeLocation: true`). -/
def cfg0 : FinalConfig := ⟨none, true, .debug, false⟩

/-- A sample entry, as built for an `info` call with no payload. -/
def sampleEntry : LogEntry := createLogEntry none true ctx0 .info "m" none

/-- A second sample entry with a different message. -/
def sampleEntry2 : LogEntry := createLogEntry none true ctx0 .info "m2" none

/-! ## Supporting lemmas -/

theorem jsLookup_filter_scope (l : List (String × JsVal)) :
    jsLookup (l.filter (fun p => p.1 ≠ "scope")) "scope" = none := by
  induction l with
  | nil => rfl
  | cons p rest ih =>
    obtain ⟨k, v⟩ := p
    by_cases hk : k = "scope"
    · simpa [List.filter_cons, hk] using ih
    · simpa [List.filter_cons, hk, jsLookup] using ih

theorem extractScope_some (payload : List (String × JsVal)) :
    extractScope (some payload) =
      (coalesceToUndef (jsLookup payload "scope"),
       if (payload.filter (fun p => p.1 ≠ "scope")).length > 0 then
         some (payload.filter (fun p => p.1 ≠ "scope"))
       else none) := rfl

theorem createLogEntry_object (pfx : Option String) (incl : Bool) (ctx : CallCtx)
    (level : LogLevel) (message : String)
    (payload : Option (List (String × JsVal))) :
    (createLogEntry pfx incl ctx level message payload).object =
      (extractScope payload).2 := rfl

theorem createLogEntry_scopeField (pfx : Option String) (incl : Bool) (ctx : CallCtx)
    (level : LogLevel) (message : String)
    (payload : Option (List (String × JsVal))) :
    (createLogEntry pfx incl ctx level message payload).scope =
      (extractScope payload).1 := rfl

theorem filter_ne_scope_eq_nil (l : List (String × JsVal))
    (h : ∀ p ∈ l, p.1 = "scope") :
    l.filter (fun p => p.1 ≠ "scope") = [] := by
  induction l with
  | nil => rfl
  | cons p rest ih =>
    have hp : p.1 = "scope" := h p (by simp)
    simpa [List.filter_cons, hp] using ih (fun q hq => h q (by simp [hq]))

theorem length_le_of_nodup_bounded (l : List Nat) (n : Nat)
    (hnd : l.Nodup) (hb : ∀ a ∈ l, a < n) : l.length ≤ n := by
  classical
  have h1 : l.toFinset.card = l.length := List.toFinset_card_of_nodup hnd
  have h2 : l.toFinset ⊆ Finset.range n := by
    intro a ha
    simp only [List.mem_toFinset] at ha
    simpa [Finset.mem_range] using hb a ha
  have h3 := Finset.card_le_card h2
  simpa [h1, Finset.card_range] using h3

/-! ## Claim C6: batch triggers -/

/-- C6: with `maxSize=3`, three log calls with no elapsed time produce
exactly one flush of exactly those three entries in call order; with
`flushInterval=500`, two log calls followed by 500ms produce exactly
one flush of those two entries; with `maxDelay=300`, a log call, 350ms,
and a second log call produce exactly one immediate flush of both. -/
theorem claim_C6 :
    (coreRun ⟨true, 3, 1000, 5000⟩ none true ctx0 (initCoreState 1000)
      [.logCall .info "m1" none, .logCall .info "m2" none,
       .logCall .info "m3" none]).flushes =
      [[createLogEntry none true ctx0 .info "m1" none,
        createLogEntry none true ctx0 .info "m2" none,
        createLogEntry none true ctx0 .info "m3" none]] ∧
    (coreRun ⟨true, 100, 500, 5000⟩ none true ctx0 (initCoreState 1000)
      [.logCall .info "m1" none, .logCall .info "m2" none, .advance 500]).flushes =
      [[createLogEntry none true ctx0 .info "m1" none,
        createLogEntry none true ctx0 .info "m2" none]] ∧
    (coreRun ⟨true, 100, 1000, 300⟩ none true ctx0 (initCoreState 1000)
      [.logCall .info "m1" none, .advance 350, .logCall .info "m2" none]).flushes =
      [[createLogEntry none true ctx0 .info "m1" none,
        createLogEntry none true ctx0 .info "m2" none]] := by
  refine ⟨?_, ?_, ?_⟩ <;> rfl

/-! ## Claim C7: level filtering -/

/-- C7: with `silent` off and transports that do not throw, a call at a
severity strictly below `minLevel` builds no entry and invokes no
transport, while a call at or above `minLevel` builds the entry and
invokes each configured transport exactly once, severity being ordered
debug < info < warn < error by `LOG_LEVEL_PRIORITY`. -/
theorem claim_C7 (cfg : FinalConfig) (ctx : CallCtx) (ts : List TBehavior)
    (level : LogLevel) (message : String)
    (object : Option (List (String × JsVal)))
    (hsilent : cfg.silent = false) (hok : TBehavior.throwSync ∉ ts) :
    (LOG_LEVEL_PRIORITY level < LOG_LEVEL_PRIORITY cfg.minLevel →
      finalLog cfg ctx ts level message object = ⟨none, [], false⟩) ∧
    (LOG_LEVEL_PRIORITY cfg.minLevel ≤ LOG_LEVEL_PRIORITY level →
      (finalLog cfg ctx ts level message object).entry =
        some (createLogEntry cfg.pfx cfg.includeLocation ctx level message object) ∧
      (finalLog cfg ctx ts level message object).invoked = List.range ts.length ∧
      (finalLog cfg ctx ts level message object).threw = false) := by
  constructor
  · intro hlt
    have hsl : shouldLog cfg level = false := by
      simp [shouldLog, hsilent]
      omega
    simp [finalLog, hsl]
  · intro hge
    have hsl : shouldLog cfg level = true := by
      simp [shouldLog, hsilent]
      omega
    have hd := dispatch_eq ts
    simp only [finalLog, hsl, Bool.not_true, if_neg (by simp : ¬ (false = true)), hd]
    refine ⟨rfl, ?_, ?_⟩
    · simp [invokedCount_of_no_throw ts hok]
    · simp [any_throw_false_of_not_mem ts hok]

/-- C7 witness: `minLevel = warn`, one well-behaved transport. -/
theorem claim_C7_witness :
    (LOG_LEVEL_PRIORITY .info < LOG_LEVEL_PRIORITY (FinalConfig.mk none true .warn false).minLevel →
      finalLog ⟨none, true, .warn, false⟩ ctx0 [.ok] .info "m" none = ⟨none, [], false⟩) ∧
    (LOG_LEVEL_PRIORITY (FinalConfig.mk none true .warn false).minLevel ≤ LOG_LEVEL_PRIORITY .info →
      (finalLog ⟨none, true, .warn, false⟩ ctx0 [.ok] .info "m" none).entry =
        some (createLogEntry none true ctx0 .info "m" none) ∧
      (finalLog ⟨none, true, .warn, false⟩ ctx0 [.ok] .info "m" none).invoked =
        List.range ([TBehavior.ok] : List TBehavior).length ∧
      (finalLog ⟨none, true, .warn, false⟩ ctx0 [.ok] .info "m" none).threw = false) :=
  claim_C7 ⟨none, true, .warn, false⟩ ctx0 [.ok] .info "m" none rfl (by decide)

/-! ## Claim C1: transport isolation -/

/-- C1 counterexample: with two transports where the first throws
synchronously, the second transport never receives the entry and the
log call itself throws — the dispatch loop has no try/catch. -/
theorem claim_C1_counterexample :
    (finalLog cfg0 ctx0 [.throwSync, .ok] .info "boom" none).invoked = [0] ∧
    1 ∉ (finalLog cfg0 ctx0 [.throwSync, .ok] .info "boom" none).invoked ∧
    (finalLog cfg0 ctx0 [.throwSync, .ok] .info "boom" none).threw = true := by
  refine ⟨rfl, by decide, rfl⟩

/-- C1 amended: at an enabled level, transports are invoked in
configuration order up to and including the first synchronously
throwing one (all of them when none throws), and the call throws iff
some transport throws synchronously; a transport whose operation
merely rejects neither stops dispatch nor makes the call throw. -/
theorem claim_C1_amended (cfg : FinalConfig) (ctx : CallCtx) (ts : List TBehavior)
    (level : LogLevel) (message : String)
    (object : Option (List (String × JsVal)))
    (h : shouldLog cfg level = true) :
    (finalLog cfg ctx ts level message object).invoked =
      List.range (invokedCount ts) ∧
    (finalLog cfg ctx ts level message object).threw =
      ts.any (· = .throwSync) ∧
    (TBehavior.throwSync ∉ ts →
      (finalLog cfg ctx ts level message object).invoked = List.range ts.length ∧
      (finalLog cfg ctx ts level message object).threw = false) := by
  have hd := dispatch_eq ts
  simp only [finalLog, h, Bool.not_true, if_neg (by simp : ¬ (false = true)), hd]
  refine ⟨rfl, rfl, fun hok => ⟨?_, ?_⟩⟩
  · simp [invokedCount_of_no_throw ts hok]
  · simp [any_throw_false_of_not_mem ts hok]

/-- C1 witness: a rejecting transport followed by a normal one — both
invoked, no throw. -/
theorem claim_C1_witness :
    (finalLog cfg0 ctx0 [.rejectAsync, .ok] .info "m" none).invoked =
      List.range (invokedCount [.rejectAsync, .ok]) ∧
    (finalLog cfg0 ctx0 [.rejectAsync, .ok] .info "m" none).threw =
      ([TBehavior.rejectAsync, .ok] : List TBehavior).any (· = .throwSync) ∧
    (TBehavior.throwSync ∉ ([TBehavior.rejectAsync, .ok] : List TBehavior) →
      (finalLog cfg0 ctx0 [.rejectAsync, .ok] .info "m" none).invoked =
        List.range ([TBehavior.rejectAsync, .ok] : List TBehavior).length ∧
      (finalLog cfg0 ctx0 [.rejectAsync, .ok] .info "m" none).threw = false) :=
  claim_C1_amended cfg0 ctx0 [.rejectAsync, .ok] .info "m" none rfl

/-! ## Claim C4: scope hoisting -/

/-- C4: for every payload with a string `scope` property, the built
entry's `object` never contains the key `scope`, the entry's `scope`
equals the payload's value, and when `scope` was the only key the
`object` field is absent (`undefined`), not an empty mapping. -/
theorem claim_C4 (payload : List (String × JsVal)) (s : String)
    (pfx : Option String) (incl : Bool) (ctx : CallCtx)
    (level : LogLevel) (message : String)
    (hscope : jsLookup payload "scope" = some (.vStr s)) :
    (∀ obj, (createLogEntry pfx incl ctx level message (some payload)).object = some obj →
      jsLookup obj "scope" = none) ∧
    (createLogEntry pfx incl ctx level message (some payload)).scope = some (.vStr s) ∧
    ((∀ p ∈ payload, p.1 = "scope") →
      (createLogEntry pfx incl ctx level message (some payload)).object = none) := by
  refine ⟨?_, ?_, ?_⟩
  · intro obj hobj
    rw [createLogEntry_object, extractScope_some] at hobj
    split at hobj
    · obtain rfl : payload.filter (fun p => p.1 ≠ "scope") = obj :=
        Option.some.injEq _ _ ▸ hobj
      exact jsLookup_filter_scope payload
    · exact Option.noConfusion hobj
  · rw [createLogEntry_scopeField, extractScope_some]
    simp [hscope, coalesceToUndef]
  · intro honly
    rw [createLogEntry_object, extractScope_some,
      filter_ne_scope_eq_nil payload honly]
    simp

/-- C4 witness: payload `\x7b scope: "Auth", status: 401 \x7d` and
payload `\x7b scope: "Auth" \x7d`. -/
theorem claim_C4_witness :
    ((∀ obj, (createLogEntry none true ctx0 .info "m"
        (some [("scope", .vStr "Auth"), ("status", .vNum 401)])).object = some obj →
      jsLookup obj "scope" = none) ∧
    (createLogEntry none true ctx0 .info "m"
        (some [("scope", .vStr "Auth"), ("status", .vNum 401)])).scope =
      some (.vStr "Auth") ∧
    ((∀ p ∈ [(("scope" : String), JsVal.vStr "Auth"), (("status" : String), JsVal.vNum 401)], p.1 = "scope") →
      (createLogEntry none true ctx0 .info "m"
        (some [("scope", .vStr "Auth"), ("status", .vNum 401)])).object = none)) ∧
    (createLogEntry none true ctx0 .info "m"
        (some [("scope", .vStr "Auth")])).object = none :=
  ⟨claim_C4 [("scope", .vStr "Auth"), ("status", .vNum 401)] "Auth" none true ctx0 .info "m" rfl,
   (claim_C4 [("scope", .vStr "Auth")] "Auth" none true ctx0 .info "m" rfl).2.2
     (by decide)⟩

/-! ## Claims C2 and C5: retry count, backoff, batch preservation -/

theorem retryGo_fail (sendOk : Nat → Bool) (mr : Nat) (entries : List LogEntry)
    (hfail : ∀ n, sendOk n = false) :
    ∀ rem attempt, retryGo sendOk mr entries attempt rem =
      ⟨List.replicate rem entries,
       ((List.range' attempt rem).filter (fun i => i < mr - 1)).map retryDelay,
       true⟩ := by
  intro rem
  induction rem with
  | zero => intro attempt; rfl
  | succ rem ih =>
    intro attempt
    simp only [retryGo, hfail attempt, Bool.false_eq_true, if_false, ih (attempt + 1),
      List.replicate_succ, List.range', List.filter_cons]
    by_cases ha : attempt < mr - 1 <;> simp [ha]

theorem sendWithRetry_fail (sendOk : Nat → Bool) (mr : Nat) (entries : List LogEntry)
    (hfail : ∀ n, sendOk n = false) :
    sendWithRetry sendOk mr entries =
      ⟨List.replicate mr entries,
       (List.range (mr - 1)).map retryDelay,
       true⟩ := by
  rw [sendWithRetry, retryGo_fail sendOk mr entries hfail mr 0]
  have hr : List.range' 0 mr = List.range mr := (List.range_eq_range' mr).symm
  rw [hr]
  have hfilter : (List.range mr).filter (fun i => i < mr - 1) = List.range (mr - 1) := by
    have : ∀ n m : Nat, (List.range n).filter (fun i => i < m) = List.range (min n m) := by
      intro n
      induction n with
      | zero => intro m; simp
      | succ n ihn =>
        intro m
        rw [List.range_succ, List.filter_append, ihn m]
        by_cases hn : n < m
        · have hmin1 : min n m = n := by omega
          have hmin2 : min (n + 1) m = n + 1 := by omega
          simp [hn, hmin1, hmin2, List.range_succ]
        · have hmin2 : min (n + 1) m = min n m := by omega
          simp [hn, hmin2]
    rw [this mr (mr - 1)]
    congr 1
    omega
  rw [hfilter]

theorem chain_lt_of_map_retryDelay (k : Nat) :
    List.Chain' (· < ·) ((List.range k).map retryDelay) := by
  rw [List.chain'_map]
  cases k with
  | zero => simp
  | succ k =>
    rw [List.chain'_range_succ]
    intro m _
    simp only [retryDelay, pow_succ]
    have h1 : 0 < 2 ^ m := Nat.pos_pow_of_pos m (by norm_num)
    omega

/-- C2 counterexample: with `maxRetries = 3` configured and a send that
fails every attempt, `send` is invoked exactly 3 times, not
`maxRetries + 1 = 4`: the loop runs `attempt < maxRetries` iterations. -/
theorem claim_C2_counterexample :
    (sendWithRetry (fun _ => false) 3 [sampleEntry]).sent.length = 3 ∧
    (sendWithRetry (fun _ => false) 3 [sampleEntry]).sent.length ≠ 3 + 1 :=
  ⟨rfl, by decide⟩

/-- C2 amended: when every attempt fails, `send` is invoked exactly
`maxRetries` times (each time with the captured batch), the sleeps
between consecutive attempts are strictly increasing, and `flush` then
invokes the error callback exactly once with all originally buffered
entries, leaving the buffer empty. -/
theorem claim_C2_amended (mr : Nat) (sendOk : Nat → Bool) (entries : List LogEntry)
    (hfail : ∀ n, sendOk n = false) (hne : entries ≠ []) :
    (httpFlush sendOk mr false entries).retry = some (sendWithRetry sendOk mr entries) ∧
    (sendWithRetry sendOk mr entries).sent.length = mr ∧
    (∀ b ∈ (sendWithRetry sendOk mr entries).sent, b = entries) ∧
    (sendWithRetry sendOk mr entries).delays = (List.range (mr - 1)).map retryDelay ∧
    List.Chain' (· < ·) (sendWithRetry sendOk mr entries).delays ∧
    (httpFlush sendOk mr false entries).callback = some (.onError entries) ∧
    (httpFlush sendOk mr false entries).buffer = [] := by
  have hsr := sendWithRetry_fail sendOk mr entries hfail
  have hempty : entries.isEmpty = false := by
    cases entries with
    | nil => exact absurd rfl hne
    | cons e rest => rfl
  have hflush : httpFlush sendOk mr false entries =
      ⟨some (sendWithRetry sendOk mr entries),
       some (.onError entries), [], false⟩ := by
    rw [httpFlush]
    simp only [hempty, Bool.false_or, Bool.or_self, if_false]
    rw [hsr]
    simp
  refine ⟨by rw [hflush], ?_, ?_, ?_, ?_, by rw [hflush], by rw [hflush]⟩
  · rw [hsr]; simp
  · rw [hsr]
    intro b hb
    exact List.eq_of_mem_replicate hb
  · rw [hsr]
  · rw [hsr]
    exact chain_lt_of_map_retryDelay (mr - 1)

/-- C2 witness: `maxRetries = 3`, two buffered entries, all sends fail. -/
theorem claim_C2_witness :
    (httpFlush (fun _ => false) 3 false [sampleEntry, sampleEntry2]).retry =
      some (sendWithRetry (fun _ => false) 3 [sampleEntry, sampleEntry2]) ∧
    (sendWithRetry (fun _ => false) 3 [sampleEntry, sampleEntry2]).sent.length = 3 ∧
    (∀ b ∈ (sendWithRetry (fun _ => false) 3 [sampleEntry, sampleEntry2]).sent,
      b = [sampleEntry, sampleEntry2]) ∧
    (sendWithRetry (fun _ => false) 3 [sampleEntry, sampleEntry2]).delays =
      (List.range (3 - 1)).map retryDelay ∧
    List.Chain' (· < ·) (sendWithRetry (fun _ => false) 3 [sampleEntry, sampleEntry2]).delays ∧
    (httpFlush (fun _ => false) 3 false [sampleEntry, sampleEntry2]).callback =
      some (.onError [sampleEntry, sampleEntry2]) ∧
    (httpFlush (fun _ => false) 3 false [sampleEntry, sampleEntry2]).buffer = [] :=
  claim_C2_amended 3 (fun _ => false) [sampleEntry, sampleEntry2]
    (fun _ => rfl) (by decide)

/-- C5 counterexample: the backoff `100 * 2 ** attempt` of
`sendWithRetry` is not capped by any ceiling — no bound dominates every
attempt's delay (the `Math.min` cap exists only in the superseded
`HTTPTransport` variant). -/
theorem claim_C5_counterexample :
    ¬ ∃ C : Nat, ∀ attempt : Nat, retryDelay attempt ≤ C := by
  rintro ⟨C, hC⟩
  have h1 : C < 2 ^ C := Nat.lt_two_pow C
  have h2 := hC C
  simp only [retryDelay] at h2
  omega

/-- C5 amended: for a batch that fails every attempt, the inter-retry
delay starts at 100ms and doubles on each successive attempt, with no
maximum ceiling applied, and every attempt sends exactly the same batch
contents in the same order as the first attempt. -/
theorem claim_C5_amended (mr : Nat) (sendOk : Nat → Bool) (entries : List LogEntry)
    (hfail : ∀ n, sendOk n = false) :
    (2 ≤ mr → (sendWithRetry sendOk mr entries).delays[0]? = some 100) ∧
    (∀ i a b, (sendWithRetry sendOk mr entries).delays[i]? = some a →
      (sendWithRetry sendOk mr entries).delays[i + 1]? = some b →
      b = 2 * a) ∧
    (∀ i, (sendWithRetry sendOk mr entries).delays[i]? =
      if i < mr - 1 then some (retryDelay i) else none) ∧
    (∀ b ∈ (sendWithRetry sendOk mr entries).sent, b = entries) := by
  have hsr := sendWithRetry_fail sendOk mr entries hfail
  have hget : ∀ i, (sendWithRetry sendOk mr entries).delays[i]? =
      if i < mr - 1 then some (retryDelay i) else none := by
    intro i
    rw [hsr]
    simp only [List.getElem?_map]
    by_cases hi : i < mr - 1
    · rw [List.getElem?_range hi]
      simp [hi]
    · have : (mr - 1) ≤ i := by omega
      rw [List.getElem?_eq_none (by simpa using this)]
      simp [hi]
  refine ⟨?_, ?_, hget, ?_⟩
  · intro hmr
    rw [hget 0]
    have h0 : 0 < mr - 1 := by omega
    simp [h0, retryDelay]
  · intro i a b ha hb
    rw [hget i] at ha
    rw [hget (i + 1)] at hb
    by_cases hi : i < mr - 1
    · by_cases hi1 : i + 1 < mr - 1
      · simp only [hi, if_true, hi1, Option.some.injEq] at ha hb
        subst ha
        subst hb
        simp only [retryDelay, pow_succ]
        ring
      · simp [hi1] at hb
    · simp [hi] at ha
  · rw [hsr]
    intro b hb
    exact List.eq_of_mem_replicate hb

/-- C5 witness: `maxRetries = 4`, all sends failing: delays are
100, 200, 400. -/
theorem claim_C5_witness :
    (2 ≤ 4 → (sendWithRetry (fun _ => false) 4 [sampleEntry]).delays[0]? = some 100) ∧
    (∀ i a b, (sendWithRetry (fun _ => false) 4 [sampleEntry]).delays[i]? = some a →
      (sendWithRetry (fun _ => false) 4 [sampleEntry]).delays[i + 1]? = some b →
      b = 2 * a) ∧
    (∀ i, (sendWithRetry (fun _ => false) 4 [sampleEntry]).delays[i]? =
      if i < 4 - 1 then some (retryDelay i) else none) ∧
    (∀ b ∈ (sendWithRetry (fun _ => false) 4 [sampleEntry]).sent, b = [sampleEntry]) :=
  claim_C5_amended 4 (fun _ => false) [sampleEntry] (fun _ => rfl)

/-! ## Association-list lemmas for JS object assignment -/

theorem jsLookup_map_overwrite_self {α : Type} (out : List (String × α))
    (k : String) (v : α) (hany : out.any (fun p => p.1 == k) = true) :
    jsLookup (out.map (fun p => if p.1 = k then (k, v) else p)) k = some v := by
  induction out with
  | nil => simp at hany
  | cons p rest ih =>
    obtain ⟨k0, v0⟩ := p
    by_cases hk0 : k0 = k
    · subst hk0
      have hh : (if (k0, v0).1 = k0 then ((k0, v) : String × α) else (k0, v0)) =
          (k0, v) := by simp
      rw [List.map_cons, hh]
      simp [jsLookup]
    · have hany' : rest.any (fun p => p.1 == k) = true := by
        simp only [List.any_cons, Bool.or_eq_true] at hany
        rcases hany with h | h
        · exact absurd (by simpa using h) hk0
        · exact h
      have hh : (if (k0, v0).1 = k then ((k, v) : String × α) else (k0, v0)) =
          (k0, v0) := by simp [hk0]
      rw [List.map_cons, hh]
      simp only [jsLookup, if_neg hk0]
      exact ih hany'

theorem jsLookup_map_overwrite_other {α : Type} (out : List (String × α))
    (k q : String) (v : α) (hq : q ≠ k) :
    jsLookup (out.map (fun p => if p.1 = q then (q, v) else p)) k =
      jsLookup out k := by
  induction out with
  | nil => rfl
  | cons p rest ih =>
    obtain ⟨k0, v0⟩ := p
    by_cases hk0 : k0 = q
    · subst hk0
      have hh : (if (k0, v0).1 = k0 then ((k0, v) : String × α) else (k0, v0)) =
          (k0, v) := by simp
      rw [List.map_cons, hh]
      simp only [jsLookup, if_neg hq]
      exact ih
    · have hh : (if (k0, v0).1 = q then ((q, v) : String × α) else (k0, v0)) =
          (k0, v0) := by simp [hk0]
      rw [List.map_cons, hh]
      by_cases hkk : k0 = k
      · simp [jsLookup, hkk]
      · simp only [jsLookup, if_neg hkk]
        exact ih

theorem jsLookup_of_any_false {α : Type} (out : List (String × α))
    (k : String) (hany : out.any (fun p => p.1 == k) = false) :
    jsLookup out k = none := by
  induction out with
  | nil => rfl
  | cons p rest ih =>
    obtain ⟨k0, v0⟩ := p
    simp only [List.any_cons, Bool.or_eq_false_iff] at hany
    have hk0 : k0 ≠ k := by simpa using hany.1
    simpa [jsLookup, hk0] using ih hany.2

theorem jsLookup_append_none {α : Type} (l1 l2 : List (String × α)) (k : String)
    (h : jsLookup l1 k = none) :
    jsLookup (l1 ++ l2) k = jsLookup l2 k := by
  induction l1 with
  | nil => rfl
  | cons p rest ih =>
    obtain ⟨k0, v0⟩ := p
    by_cases hk0 : k0 = k
    · simp [jsLookup, hk0] at h
    · rw [List.cons_append]
      simp only [jsLookup, if_neg hk0] at h ⊢
      exact ih h

theorem jsLookup_jsInsert_self {α : Type} (out : List (String × α))
    (k : String) (v : α) :
    jsLookup (jsInsert out k v) k = some v := by
  rw [jsInsert]
  by_cases hany : out.any (fun p => p.1 == k) = true
  · rw [if_pos hany]
    exact jsLookup_map_overwrite_self out k v hany
  · rw [if_neg hany]
    have h0 : jsLookup out k = none :=
      jsLookup_of_any_false out k (by simpa only [Bool.not_eq_true] using hany)
    rw [jsLookup_append_none out [(k, v)] k h0]
    simp [jsLookup]

theorem jsLookup_jsInsert_other {α : Type} (out : List (String × α))
    (k q : String) (v : α) (hq : q ≠ k) :
    jsLookup (jsInsert out q v) k = jsLookup out k := by
  rw [jsInsert]
  by_cases hany : out.any (fun p => p.1 == q) = true
  · rw [if_pos hany]
    exact jsLookup_map_overwrite_other out k q v hq
  · rw [if_neg hany]
    cases hcur : jsLookup out k with
    | some w =>
      -- the key is found in the original prefix of the appended list
      clear hany
      induction out with
      | nil => simp [jsLookup] at hcur
      | cons p rest ih =>
        obtain ⟨k0, v0⟩ := p
        by_cases hk0 : k0 = k
        · simpa [jsLookup, hk0] using hcur
        · simp only [jsLookup, if_neg hk0] at hcur ⊢
          exact ih hcur
    | none =>
      rw [jsLookup_append_none out [(q, v)] k hcur]
      simp [jsLookup, hq]

/-! ## Claim C9: request shape -/

theorem jsLookup_foldl_jsInsert_preserved {α : Type} (hs : List (String × α))
    (out0 : List (String × α)) (k : String) (hk : ∀ kv ∈ hs, kv.1 ≠ k) :
    jsLookup (hs.foldl (fun out kv => jsInsert out kv.1 kv.2) out0) k =
      jsLookup out0 k := by
  induction hs generalizing out0 with
  | nil => rfl
  | cons kv rest ih =>
    rw [List.foldl_cons]
    rw [ih (jsInsert out0 kv.1 kv.2) (fun q hq => hk q (by simp [hq]))]
    exact jsLookup_jsInsert_other out0 k kv.1 kv.2 (hk kv (by simp))

/-- C9 counterexample: the HTTP method of the transport's request is
not configurable — no pair of configurations yields different methods,
since `HttpTransportConfig` has no method option and `send` hardcodes
`POST`. -/
theorem claim_C9_counterexample : ¬ methodConfigurable := by
  rintro ⟨c1, e1, c2, e2, hne⟩
  exact hne rfl

/-- C9 amended: every send posts the JSON serialization of
`\x7b logs: entries \x7d` with method always `POST` (not configurable);
the `Content-Type` header is `application/json` whenever the custom
headers do not override that key; any 2xx response is success and every
non-2xx response or network failure is a failure eligible for retry. -/
theorem claim_C9_amended (cfg : HttpConfig) (entries : List LogEntry)
    (hct : ∀ kv ∈ cfg.headers.getD [], kv.1 ≠ "Content-Type") :
    (buildRequest cfg entries).method = "POST" ∧
    (buildRequest cfg entries).bodyLogs = entries ∧
    jsLookup (buildRequest cfg entries).headers "Content-Type" =
      some "application/json" ∧
    (∀ status, sendSucceeds (some status) = true ↔ 200 ≤ status ∧ status < 300) ∧
    sendSucceeds none = false := by
  refine ⟨rfl, rfl, ?_, ?_, rfl⟩
  · have h := jsLookup_foldl_jsInsert_preserved (cfg.headers.getD [])
      [("Content-Type", "application/json")] "Content-Type" hct
    exact h.trans (by simp [jsLookup])
  · intro status
    simp [sendSucceeds, responseOk]

/-- C9 witness: a config with an `Authorization` header. -/
theorem claim_C9_witness :
    (buildRequest ⟨"https://logs.example.com", some [("Authorization", "Bearer x")],
        none, none, none, none⟩ [sampleEntry]).method = "POST" ∧
    (buildRequest ⟨"https://logs.example.com", some [("Authorization", "Bearer x")],
        none, none, none, none⟩ [sampleEntry]).bodyLogs = [sampleEntry] ∧
    jsLookup (buildRequest ⟨"https://logs.example.com", some [("Authorization", "Bearer x")],
        none, none, none, none⟩ [sampleEntry]).headers "Content-Type" =
      some "application/json" ∧
    (∀ status, sendSucceeds (some status) = true ↔ 200 ≤ status ∧ status < 300) ∧
    sendSucceeds none = false :=
  claim_C9_amended
    ⟨"https://logs.example.com", some [("Authorization", "Bearer x")],
      none, none, none, none⟩ [sampleEntry] (by decide)

/-! ## Claim C3: construction-time validation -/

/-- Whether an `Except` models a thrown configuration error. -/
def isErr {α : Type} : Except String α → Bool
  | .error _ => true
  | .ok _ => false

theorem validateHeadersList_err_iff (hs : List (String × String)) :
    isErr (validateHeadersList hs) = true ↔
      ∃ kv ∈ hs, strLower kv.1 ∈ RESTRICTED_HEADERS := by
  induction hs with
  | nil => simp [validateHeadersList, isErr]
  | cons kv rest ih =>
    obtain ⟨k, v⟩ := kv
    by_cases hk : strLower k ∈ RESTRICTED_HEADERS
    · simp [validateHeadersList, hk, isErr]
    · simp only [validateHeadersList, if_neg hk]
      rw [ih]
      constructor
      · rintro ⟨q, hq, hql⟩
        exact ⟨q, by simp [hq], hql⟩
      · rintro ⟨q, hq, hql⟩
        rcases List.mem_cons.mp hq with rfl | hq2
        · exact absurd hql hk
        · exact ⟨q, hq2, hql⟩

theorem validateHeaders_err_iff (oh : Option (List (String × String))) :
    isErr (validateHeaders oh) = true ↔
      ∃ kv ∈ oh.getD [], strLower kv.1 ∈ RESTRICTED_HEADERS := by
  cases oh with
  | none => simp [validateHeaders, isErr]
  | some hs => simpa [validateHeaders] using validateHeadersList_err_iff hs

theorem validateEndpoint_err_iff (endpoint : String) :
    isErr (validateEndpoint endpoint) = true ↔
      ¬ ∃ p, parseURLProtocol endpoint = some p ∧ (p = "http:" ∨ p = "https:") := by
  cases hpe : parseURLProtocol endpoint with
  | none => simp [validateEndpoint, hpe, isErr]
  | some p =>
    by_cases hp : p ≠ "http:" ∧ p ≠ "https:"
    · simp only [validateEndpoint, hpe, if_pos hp]
      simp [isErr]
      tauto
    · simp only [validateEndpoint, hpe, if_neg hp]
      simp [isErr]
      tauto

theorem httpTransportInit_err_iff (cfg : HttpConfig) :
    isErr (httpTransportInit cfg) = true ↔
      isErr (validateEndpoint cfg.endpoint) = true ∨
      isErr (validateHeaders cfg.headers) = true := by
  rw [httpTransportInit]
  cases hv : validateEndpoint cfg.endpoint with
  | error e => simp [hv, isErr, Bind.bind, Except.bind]
  | ok u =>
    cases u
    simp [hv, isErr, Bind.bind, Except.bind]

/-- C3: the HTTP transport constructor raises a configuration error —
before any network activity, construction only validates and arms a
timer — if and only if the endpoint does not parse as an absolute URL
with scheme `http` or `https`, or some custom header key
case-insensitively equals `host`, `content-length`, or
`transfer-encoding`; in particular `javascript:`, `file:`, `data:`,
`ftp:` endpoints and malformed URLs are rejected, `http://localhost`
and `https://example.com/logs` are accepted, restricted header keys in
any casing are rejected and `Authorization` is accepted. -/
theorem claim_C3 :
    (∀ cfg : HttpConfig,
      isErr (httpTransportInit cfg) = true ↔
        ((¬ ∃ p, parseURLProtocol cfg.endpoint = some p ∧
            (p = "http:" ∨ p = "https:")) ∨
         (∃ kv ∈ cfg.headers.getD [], strLower kv.1 ∈ RESTRICTED_HEADERS))) ∧
    isErr (httpTransportInit ⟨"javascript:alert(1)", none, none, none, none, none⟩) = true ∧
    isErr (httpTransportInit ⟨"file:///etc/passwd", none, none, none, none, none⟩) = true ∧
    isErr (httpTransportInit ⟨"data:text/html,x", none, none, none, none, none⟩) = true ∧
    isErr (httpTransportInit ⟨"ftp://example.com/logs", none, none, none, none, none⟩) = true ∧
    isErr (httpTransportInit ⟨"not-a-valid-url", none, none, none, none, none⟩) = true ∧
    isErr (httpTransportInit ⟨"", none, none, none, none, none⟩) = true ∧
    isErr (httpTransportInit ⟨"http://", none, none, none, none, none⟩) = true ∧
    isErr (httpTransportInit ⟨"http://localhost", none, none, none, none, none⟩) = false ∧
    isErr (httpTransportInit ⟨"http://localhost:3000/logs", none, none, none, none, none⟩) = false ∧
    isErr (httpTransportInit ⟨"https://example.com/logs", none, none, none, none, none⟩) = false ∧
    isErr (httpTransportInit ⟨"https://example.com/logs",
      some [("Host", "evil")], none, none, none, none⟩) = true ∧
    isErr (httpTransportInit ⟨"https://example.com/logs",
      some [("Content-Length", "0")], none, none, none, none⟩) = true ∧
    isErr (httpTransportInit ⟨"https://example.com/logs",
      some [("Transfer-Encoding", "chunked")], none, none, none, none⟩) = true ∧
    isErr (httpTransportInit ⟨"https://example.com/logs",
      some [("Authorization", "Bearer t"), ("x-api-key", "k")], none, none, none, none⟩) = false := by
  refine ⟨?_, ?_, ?_, ?_, ?_, ?_, ?_, ?_, ?_, ?_, ?_, ?_, ?_, ?_, ?_⟩
  · intro cfg
    rw [httpTransportInit_err_iff, validateEndpoint_err_iff, validateHeaders_err_iff]
  all_goals decide

/-! ## Claim C10: payload flattening is last-write-wins -/

theorem jsLookup_foldl_jsonStep_preserved (obj : List (String × JsVal))
    (out0 : List (String × JsVal)) (k : String)
    (hk : k ∉ obj.map Prod.fst) :
    jsLookup (obj.foldl
      (fun out kv =>
        if kv.2 ≠ JsVal.vUndef ∧ kv.1 ∉ DANGEROUS_KEYS then jsInsert out kv.1 kv.2
        else out) out0) k = jsLookup out0 k := by
  induction obj generalizing out0 with
  | nil => rfl
  | cons kv rest ih =>
    have hk1 : kv.1 ≠ k := by
      intro he
      exact hk (by simp [he])
    have hk2 : k ∉ rest.map Prod.fst := by
      intro he
      exact hk (by simp [he])
    rw [List.foldl_cons, ih _ hk2]
    by_cases hc : kv.2 ≠ JsVal.vUndef ∧ kv.1 ∉ DANGEROUS_KEYS
    · rw [if_pos hc]
      exact jsLookup_jsInsert_other out0 k kv.1 kv.2 hk1
    · rw [if_neg hc]

theorem jsLookup_foldl_jsonStep_mem (obj : List (String × JsVal))
    (out0 : List (String × JsVal)) (k : String) (v : JsVal)
    (hnd : (obj.map Prod.fst).Nodup) (hmem : (k, v) ∈ obj)
    (hv : v ≠ JsVal.vUndef) (hk : k ∉ DANGEROUS_KEYS) :
    jsLookup (obj.foldl
      (fun out kv =>
        if kv.2 ≠ JsVal.vUndef ∧ kv.1 ∉ DANGEROUS_KEYS then jsInsert out kv.1 kv.2
        else out) out0) k = some v := by
  induction obj generalizing out0 with
  | nil => simp at hmem
  | cons kv rest ih =>
    rw [List.map_cons, List.nodup_cons] at hnd
    rcases List.mem_cons.mp hmem with heq | htail
    · subst heq
      rw [List.foldl_cons, if_pos ⟨hv, hk⟩]
      rw [jsLookup_foldl_jsonStep_preserved rest _ k hnd.1]
      exact jsLookup_jsInsert_self out0 k v
    · rw [List.foldl_cons]
      exact ih _ hnd.2 htail

/-- C10: for every entry whose payload contains one of the fixed
structured-output keys (`level`, `message`, `timestamp`, `location`,
`requestId`) with a defined value, the JSON formatter's output maps
that key to the payload's value — flattening silently overwrites the
entry's own top-level field (last write wins). -/
theorem claim_C10 (entry : LogEntry) (obj : List (String × JsVal))
    (k : String) (v : JsVal)
    (hobj : entry.object = some obj)
    (hnd : (obj.map Prod.fst).Nodup)
    (hk : k ∈ (["level", "message", "timestamp", "location", "requestId"] : List String))
    (hmem : (k, v) ∈ obj) (hv : v ≠ JsVal.vUndef) :
    jsLookup (buildJsonOutput entry) k = some v := by
  have hkd : k ∉ DANGEROUS_KEYS := by
    simp only [List.mem_cons, List.mem_singleton] at hk
    rcases hk with rfl | rfl | rfl | rfl | rfl | h
    · decide
    · decide
    · decide
    · decide
    · decide
    · simp at h
  rw [buildJsonOutput, hobj]
  exact jsLookup_foldl_jsonStep_mem obj _ k v hnd hmem hv hkd

/-- C10 witness: a payload overriding `message` and `level`. -/
theorem claim_C10_witness :
    jsLookup (buildJsonOutput
      { level := .info
        message := "original"
        timestamp := "2024-01-01T00:00:00.000Z"
        location := .dev "app.ts" 42 "main"
        requestId := "req_00000001"
        scope := none
        object := some [("message", .vStr "override"), ("status", .vNum 401)] })
      "message" = some (.vStr "override") :=
  claim_C10
    { level := .info
      message := "original"
      timestamp := "2024-01-01T00:00:00.000Z"
      location := .dev "app.ts" 42 "main"
      requestId := "req_00000001"
      scope := none
      object := some [("message", .vStr "override"), ("status", .vNum 401)] }
    [("message", .vStr "override"), ("status", .vNum 401)]
    "message" (.vStr "override") rfl (by decide) (by decide) (by decide) (by decide)

/-! ## Claim C8: safe serialization -/

theorem serFieldsWith_ok (go : List Nat → HVal → Except String (String × List Nat))
    (good : List Nat → Prop)
    (hgo : ∀ seen v, good seen → isPoison v = false →
      ∃ s seen2, go seen v = .ok (s, seen2) ∧ good seen2 ∧ seen.length ≤ seen2.length) :
    ∀ (fields : List (String × HVal)) (seen : List Nat),
      (∀ kv ∈ fields, isPoison kv.2 = false) → good seen →
      ∃ parts seen2, serFieldsWith go seen fields = .ok (parts, seen2) ∧
        good seen2 ∧ seen.length ≤ seen2.length := by
  intro fields
  induction fields with
  | nil =>
    intro seen _ hg
    exact ⟨[], seen, rfl, hg, Nat.le_refl _⟩
  | cons kv rest ih =>
    intro seen hnp hg
    obtain ⟨k, v⟩ := kv
    obtain ⟨s, seen1, heq1, hg1, hl1⟩ := hgo seen v hg (hnp (k, v) (by simp))
    obtain ⟨parts, seen2, heq2, hg2, hl2⟩ :=
      ih seen1 (fun q hq => hnp q (by simp [hq])) hg1
    refine ⟨(jsonQuote k ++ ": " ++ s) :: parts, seen2, ?_, hg2, Nat.le_trans hl1 hl2⟩
    simp only [serFieldsWith, heq1, heq2]

theorem serProp_ok (h : Heap) (hp : heapNoPoison h) :
    ∀ (fuel : Nat) (seen : List Nat) (depth : Nat) (v : HVal),
      isPoison v = false → seen.Nodup → (∀ a ∈ seen, a < h.length) →
      h.length < fuel + seen.length →
      ∃ s seen2, serProp h fuel seen depth v = .ok (s, seen2) ∧
        seen2.Nodup ∧ (∀ a ∈ seen2, a < h.length) ∧ seen.length ≤ seen2.length := by
  intro fuel
  induction fuel with
  | zero =>
    intro seen depth v hv hnd hb hlt
    have hle := length_le_of_nodup_bounded seen h.length hnd hb
    omega
  | succ f ih =>
    intro seen depth v hv hnd hb hlt
    cases v with
    | hPoison m => simp [isPoison] at hv
    | hNull => exact ⟨_, _, rfl, hnd, hb, Nat.le_refl _⟩
    | hUndef => exact ⟨_, _, rfl, hnd, hb, Nat.le_refl _⟩
    | hBool b => exact ⟨_, _, rfl, hnd, hb, Nat.le_refl _⟩
    | hNum n => exact ⟨_, _, rfl, hnd, hb, Nat.le_refl _⟩
    | hStr s => exact ⟨_, _, rfl, hnd, hb, Nat.le_refl _⟩
    | hFn nm => exact ⟨_, _, rfl, hnd, hb, Nat.le_refl _⟩
    | hSym d => exact ⟨_, _, rfl, hnd, hb, Nat.le_refl _⟩
    | hBig n => exact ⟨_, _, rfl, hnd, hb, Nat.le_refl _⟩
    | hRef a =>
      by_cases hmem : a ∈ seen
      · exact ⟨jsonQuote "[Circular Reference]", seen,
          by simp [serProp, hmem], hnd, hb, Nat.le_refl _⟩
      · cases hga : h[a]? with
        | none => exact ⟨"null", seen,
            by simp [serProp, hmem, hga], hnd, hb, Nat.le_refl _⟩
        | some fields =>
          have ha : a < h.length := by
            rcases List.getElem?_eq_some.mp hga with ⟨hlt2, _⟩
            exact hlt2
          have hfm : fields ∈ h := by
            rcases List.getElem?_eq_some.mp hga with ⟨hlt2, he⟩
            exact he ▸ List.getElem_mem hlt2
          have hnp : ∀ kv ∈ fields, isPoison kv.2 = false := hp fields hfm
          have hgo : ∀ sn w,
              (sn.Nodup ∧ (∀ x ∈ sn, x < h.length) ∧ h.length < f + sn.length) →
              isPoison w = false →
              ∃ s2 sn2, serProp h f sn (depth + 1) w = .ok (s2, sn2) ∧
                (sn2.Nodup ∧ (∀ x ∈ sn2, x < h.length) ∧ h.length < f + sn2.length) ∧
                sn.length ≤ sn2.length := by
            intro sn w hg hw
            obtain ⟨s2, sn2, heq, hnd2, hb2, hl2⟩ :=
              ih sn (depth + 1) w hw hg.1 hg.2.1 hg.2.2
            exact ⟨s2, sn2, heq, ⟨hnd2, hb2, by omega⟩, hl2⟩
          have hginit : (a :: seen).Nodup ∧ (∀ x ∈ a :: seen, x < h.length) ∧
              h.length < f + (a :: seen).length := by
            refine ⟨List.nodup_cons.mpr ⟨hmem, hnd⟩, ?_, ?_⟩
            · intro x hx
              rcases List.mem_cons.mp hx with rfl | hx2
              · exact ha
              · exact hb x hx2
            · simp only [List.length_cons]
              omega
          obtain ⟨parts, seen2, heqf, hg2, hl2⟩ :=
            serFieldsWith_ok (fun sn w => serProp h f sn (depth + 1) w)
              (fun sn => sn.Nodup ∧ (∀ x ∈ sn, x < h.length) ∧ h.length < f + sn.length)
              hgo fields (a :: seen) hnp hginit
          have hlen : seen.length ≤ seen2.length := by
            simp only [List.length_cons] at hl2
            omega
          by_cases hpe : parts.isEmpty
          · refine ⟨"\x7b\x7d", seen2, ?_, hg2.1, hg2.2.1, hlen⟩
            simp [serProp, hmem, hga, heqf, hpe]
          · refine ⟨"\x7b\n" ++
                String.intercalate ",\n"
                  (parts.map (fun p => jsonIndent (depth + 1) ++ p)) ++
                "\n" ++ jsonIndent depth ++ "\x7d", seen2, ?_, hg2.1, hg2.2.1, hlen⟩
            simp [serProp, hmem, hga, heqf, hpe]

theorem safeStringifyE_ok (h : Heap) (v : HVal)
    (hp : heapNoPoison h) (hv : isPoison v = false) :
    ∃ s, safeStringifyE h v = .ok s := by
  cases v with
  | hPoison m => simp [isPoison] at hv
  | hRef a =>
    obtain ⟨s, seen2, heq, _⟩ :=
      serProp_ok h hp (h.length + 1) [] 0 (.hRef a) hv List.nodup_nil
        (by simp) (by simp)
    exact ⟨s, by simp [safeStringifyE, typeToString, heq]⟩
  | hNull => exact ⟨_, rfl⟩
  | hUndef => exact ⟨_, rfl⟩
  | hBool b => exact ⟨_, rfl⟩
  | hNum n => exact ⟨_, rfl⟩
  | hStr s => exact ⟨_, rfl⟩
  | hFn nm => exact ⟨_, rfl⟩
  | hSym d => exact ⟨_, rfl⟩
  | hBig n => exact ⟨_, rfl⟩

/-- A self-referential object: `obj.self = obj`. -/
def hSelf : Heap := [[("name", .hStr "test"), ("self", .hRef 0)]]

/-- Two mutually-referential objects: `o1.a = o2`, `o2.b = o1`. -/
def hMutual : Heap := [[("a", .hRef 1)], [("b", .hRef 0), ("x", .hNum 1)]]

/-- An object with a throwing getter (`Cannot access`). -/
def hPois : Heap := [[("data", .hStr "t"), ("bad", .hPoison "Cannot access")]]

/-- C8: serialization of any poison-free value over any heap — however
self- or mutually-referential — completes without raising (the try
block returns, so the total `safeStringify` returns that string);
concretely, circular structures render with the `[Circular Reference]`
placeholder while keeping their non-circular sibling keys and values;
functions, symbols and bigints render as readable type-tagged strings;
and a value whose stringification throws yields the fixed
`[Serialization Error: ...]` fallback instead of propagating. -/
theorem claim_C8 :
    (∀ (h : Heap) (v : HVal), heapNoPoison h → isPoison v = false →
      ∃ s, safeStringifyE h v = .ok s ∧ safeStringify h v = s) ∧
    strContainsSub (safeStringify hSelf (.hRef 0)) "[Circular Reference]" = true ∧
    strContainsSub (safeStringify hSelf (.hRef 0)) "\"name\": \"test\"" = true ∧
    strContainsSub (safeStringify hMutual (.hRef 0)) "[Circular Reference]" = true ∧
    strContainsSub (safeStringify hMutual (.hRef 0)) "\"x\": 1" = true ∧
    safeStringify [] (.hFn "testFunc") = "[Function: testFunc]" ∧
    safeStringify [] (.hFn "") = "[Function: anonymous]" ∧
    safeStringify [] (.hSym "test") = "Symbol(test)" ∧
    safeStringify [] (.hBig 123) = "123" ∧
    safeStringify hPois (.hRef 0) = "[Serialization Error: Cannot access]" := by
  refine ⟨?_, by decide, by decide, by decide, by decide, rfl, rfl, rfl, rfl, rfl⟩
  intro h v hp hv
  obtain ⟨s, heq⟩ := safeStringifyE_ok h v hp hv
  exact ⟨s, heq, by simp [safeStringify, heq]⟩

/-- C8 witness: the self-referential heap serializes without raising. -/
theorem claim_C8_witness :
    ∃ s, safeStringifyE hSelf (.hRef 0) = .ok s ∧ safeStringify hSelf (.hRef 0) = s :=
  claim_C8.1 hSelf (.hRef 0) (by unfold heapNoPoison; decide) (by decide)

end NNLog
